import Mathlib

/-!
Verification of the framebuffer drawing program `fb_tux.c`.

The program draws into a fixed 640x480 surface of 32-bit XRGB8888 pixels.
We embed the surface as a function from integer coordinates to pixel values
(natural numbers below 2^32); the C array index `y * FB_WIDTH + x` is in
bijection with in-range coordinate pairs, so a function of `(x, y)` is an
exact model of the mapped buffer.  Machine arithmetic is modelled on `Nat`
and `Int` with explicit `% 2 ^ 32` where a `uint32_t` computation can
overflow, and `% 256` where a value is stored into an `unsigned char`.
-/

/-- `#define FB_WIDTH 640` -/
def FB_WIDTH : Nat := 640

/-- `#define FB_HEIGHT 480` -/
def FB_HEIGHT : Nat := 480

/-- The pixel surface: pixel value at integer coordinates `(x, y)`.
Only coordinates inside `[0, FB_WIDTH) x [0, FB_HEIGHT)` correspond to
bytes of the mapped buffer; the function is kept total so that the
absence of out-of-bounds writes is expressible. -/
abbrev Surface := Int → Int → Nat

/-- The coordinate is inside the fixed surface bounds. -/
abbrev inBounds (x y : Int) : Prop :=
  0 ≤ x ∧ x < (FB_WIDTH : Int) ∧ 0 ≤ y ∧ y < (FB_HEIGHT : Int)

/-- `put_pixel` from `fb_tux.c`: bounds-checked 32-bit pixel store,
silently dropping out-of-range coordinates. -/
def put_pixel (fb : Surface) (x y : Int) (color : Nat) : Surface :=
  if x < 0 ∨ (FB_WIDTH : Int) ≤ x ∨ y < 0 ∨ (FB_HEIGHT : Int) ≤ y then fb
  else fun px py => if px = x ∧ py = y then color else fb px py

/-- `draw_rect` from `fb_tux.c`: nested loops over `dy < h`, `dx < w`
writing `color` through `put_pixel`. -/
def draw_rect (fb : Surface) (x y : Int) (w h : Nat) (color : Nat) : Surface :=
  (List.range h).foldl (fun a (dy : Nat) =>
    (List.range w).foldl (fun b (dx : Nat) =>
      put_pixel b (x + dx) (y + dy) color) a) fb

/-- `blend_over` from `fb_tux.c`: Porter-Duff "over" on packed 32-bit ARGB
values with integer (truncating) division, result truncated to `uint32_t`. -/
def blend_over (src dst : Nat) : Nat :=
  let sa := (src >>> 24) &&& 0xFF
  let sr := (src >>> 16) &&& 0xFF
  let sg := (src >>> 8) &&& 0xFF
  let sb := (src >>> 0) &&& 0xFF
  let da := (dst >>> 24) &&& 0xFF
  let dr := (dst >>> 16) &&& 0xFF
  let dg := (dst >>> 8) &&& 0xFF
  let db := (dst >>> 0) &&& 0xFF
  let inv_sa := 255 - sa
  let ra := sa + da * inv_sa / 255
  let rr := sr + dr * inv_sa / 255
  let rg := sg + dg * inv_sa / 255
  let rb := sb + db * inv_sa / 255
  ((ra <<< 24) ||| (rr <<< 16) ||| (rg <<< 8) ||| rb) % 2 ^ 32

/-- The per-pixel color of `draw_gradient_rgb`; the `% 256` model the
`uint8_t` casts of the three channel computations. -/
def gradient_color (x y : Nat) : Nat :=
  let r := x * 255 / FB_WIDTH % 256
  let g := y * 255 / FB_HEIGHT % 256
  let b := (x + y) * 127 / (FB_WIDTH + FB_HEIGHT) % 256
  0xFF000000 ||| (r <<< 16) ||| (g <<< 8) ||| b

/-- `draw_gradient_rgb` from `fb_tux.c`. -/
def draw_gradient_rgb (fb : Surface) : Surface :=
  (List.range FB_HEIGHT).foldl (fun a (y : Nat) =>
    (List.range FB_WIDTH).foldl (fun b (x : Nat) =>
      put_pixel b x y (gradient_color x y)) a) fb

/-- The `colors[8]` array of `draw_color_bars`. -/
def bar_colors : List Nat :=
  [0xFFFFFFFF, 0xFFFFFF00, 0xFF00FFFF, 0xFF00FF00,
   0xFFFF00FF, 0xFFFF0000, 0xFF0000FF, 0xFF000000]

/-- `draw_color_bars` from `fb_tux.c`: eight full-height vertical bars of
width `FB_WIDTH / 8`. -/
def draw_color_bars (fb : Surface) : Surface :=
  let bar_w := FB_WIDTH / 8
  (List.range 8).foldl (fun a (i : Nat) =>
    draw_rect a (i * bar_w) 0 bar_w FB_HEIGHT (bar_colors.getD i 0)) fb

/-- An indexed-color (CLUT) image as used by the logo renderers: the asset
itself (`logo_tux_data.h`) is an external collaborator, so the image is a
parameter; `data` and `clut` model the `unsigned char` arrays (reads are
taken `% 256`). -/
structure IndexedImage where
  w : Nat
  h : Nat
  data : Nat → Nat
  clut : Nat → Nat

/-- The ARGB color written by `draw_official_logo` for source pixel
`(px, py)`: palette lookup of the index byte, alpha forced opaque. -/
def logo_color (img : IndexedImage) (px py : Nat) : Nat :=
  let idx := img.data (py * img.w + px) % 256
  let r := img.clut (idx * 3 + 0) % 256
  let g := img.clut (idx * 3 + 1) % 256
  let b := img.clut (idx * 3 + 2) % 256
  0xFF000000 ||| (r <<< 16) ||| (g <<< 8) ||| b

/-- `draw_official_logo` from `fb_tux.c`: blit of the indexed image with
its top-left at `center - size / 2` (truncating division), every pixel
written through `put_pixel` with no blending. -/
def draw_official_logo (img : IndexedImage) (fb : Surface) (center_x center_y : Int) : Surface :=
  let x : Int := center_x - (img.w / 2 : Nat)
  let y : Int := center_y - (img.h / 2 : Nat)
  (List.range img.h).foldl (fun a (py : Nat) =>
    (List.range img.w).foldl (fun b (px : Nat) =>
      put_pixel b (x + px) (y + py) (logo_color img px py)) a) fb

/-- `memset(fb, c, FB_SIZE)`: every byte of the mapped buffer — that is,
every in-bounds 32-bit pixel — becomes the byte `c` repeated four times. -/
def memset32 (fb : Surface) (c : Nat) : Surface :=
  fun x y => if inBounds x y then c % 256 * 0x01010101 else fb x y

/-- The loop body of `draw_multiple_logos`, iterating `i` upward with `n`
iterations remaining; `cols = 4` and `margin = 20` from the source.  The
loop breaks as soon as the current row's vertical extent `y + logo_h`
exceeds `FB_HEIGHT`. -/
def draw_logos_from (img : IndexedImage) (start_x : Int) : Nat → Nat → Surface → Surface
  | _, 0, fb => fb
  | i, Nat.succ n, fb =>
    let row := i / 4
    let col := i % 4
    let x : Int := start_x + col * (img.w + 20)
    let y : Nat := 20 + row * (img.h + 20)
    if y + img.h > FB_HEIGHT then fb
    else draw_logos_from img start_x (i + 1) n
      (draw_official_logo img fb (x + (img.w / 2 : Nat)) ((y : Int) + (img.h / 2 : Nat)))

/-- `draw_multiple_logos` from `fb_tux.c`: clears the surface to zero
bytes, computes the horizontally-centered start column of a 4-column grid
(`Int.div` is the C truncating division), and places up to `count` copies.
A negative `count` runs zero iterations, as the C `for` loop does. -/
def draw_multiple_logos (img : IndexedImage) (fb : Surface) (count : Int) : Surface :=
  let start_x : Int := ((FB_WIDTH : Int) - (img.w * 4 + 20 * 3)).tdiv 2
  draw_logos_from img start_x 0 count.toNat (memset32 fb 0)

/-- Ghost twin of `draw_logos_from` counting how many copies the loop
actually blits before the break. -/
def logos_placed_from (img : IndexedImage) : Nat → Nat → Nat
  | _, 0 => 0
  | i, Nat.succ n =>
    if 20 + i / 4 * (img.h + 20) + img.h > FB_HEIGHT then 0
    else logos_placed_from img (i + 1) n + 1

/-- Number of copies placed by `draw_multiple_logos img fb count`. -/
def logos_placed (img : IndexedImage) (count : Int) : Nat :=
  logos_placed_from img 0 count.toNat

/-- `draw_vector_tux` from `fb_tux.c`.  The C `double` ellipse membership
tests are modelled as exact rational arithmetic; no claim depends on the
floating-point rounding of these tests. -/
def draw_vector_tux (fb : Surface) : Surface :=
  let cx : Int := (FB_WIDTH / 2 : Nat)
  let cy : Int := (FB_HEIGHT / 2 : Nat)
  let fb1 := (List.range 161).foldl (fun a iy =>
    (List.range 101).foldl (fun b ix =>
      let y : Int := -80 + iy
      let x : Int := -50 + ix
      if ((x * x : Int) : ℚ) / 2500 + ((y * y : Int) : ℚ) / 6400 ≤ 1 then
        put_pixel b (cx + x) (cy + y) 0xFF000000
      else b) a) fb
  let fb2 := (List.range 101).foldl (fun a iy =>
    (List.range 61).foldl (fun b ix =>
      let y : Int := -40 + iy
      let x : Int := -30 + ix
      if ((x * x : Int) : ℚ) / 900 + ((y * y : Int) : ℚ) / 2500 ≤ 1 then
        put_pixel b (cx + x) (cy + y + 10) 0xFFFFFFFF
      else b) a) fb1
  let fb3 := (List.range 17).foldl (fun a idy =>
    (List.range 17).foldl (fun b idx =>
      let dy : Int := -8 + idy
      let dx : Int := -8 + idx
      let b1 := if dx * dx + dy * dy ≤ 64 then
          put_pixel (put_pixel b (cx - 20 + dx) (cy - 30 + dy) 0xFFFFFFFF)
            (cx + 20 + dx) (cy - 30 + dy) 0xFFFFFFFF
        else b
      if dx * dx + dy * dy ≤ 16 then
        put_pixel (put_pixel b1 (cx - 20 + dx) (cy - 28 + dy) 0xFF000000)
          (cx + 20 + dx) (cy - 28 + dy) 0xFF000000
      else b1) a) fb2
  let fb4 := (List.range 10).foldl (fun a y =>
    (List.range (17 - 2 * (y / 2))).foldl (fun b i =>
      let x : Int := -8 + (y / 2 : Nat) + i
      put_pixel b (cx + x) (cy - 10 + y) 0xFFFFA500) a) fb3
  let fb5 := (List.range 2).foldl (fun a foot =>
    let foot_x : Int := cx + (if foot = 0 then -25 else 25)
    let foot_y : Int := cy + 75
    let a1 := (List.range 15).foldl (fun b y =>
      (List.range 25).foldl (fun c ix =>
        put_pixel c (foot_x + (-12 + ix)) (foot_y + y) 0xFFFFA500) b) a
    (List.range 3).foldl (fun b toe =>
      let toe_x : Int := foot_x + ((toe : Int) - 1) * 10
      (List.range 20).foldl (fun c y =>
        (List.range 7).foldl (fun d ix =>
          put_pixel d (toe_x + (-3 + ix)) (foot_y + 15 + y) 0xFFFFA500) c) b) a1) fb4
  (List.range 2).foldl (fun a wing =>
    let wing_x : Int := cx + (if wing = 0 then -50 else 50)
    let dir : Int := if wing = 0 then -1 else 1
    (List.range 61).foldl (fun b iy =>
      (List.range 25).foldl (fun c ix =>
        let y : Int := -30 + iy
        let x : Int := ix
        if ((y * y : Int) : ℚ) / 900 + ((x * x : Int) : ℚ) / 625 ≤ 1 then
          put_pixel c (wing_x + dir * x) (cy + y) 0xFF000000
        else c) b) a) fb5

/-- The `fill` loop of `main`: `for (i = 0; i < FB_WIDTH*FB_HEIGHT; i++)
fb[i] = color` — every in-bounds pixel receives `color` (each linear index
`i` corresponds to the unique in-bounds coordinate `(i % 640, i / 640)`). -/
def fill_loop (fb : Surface) (color : Nat) : Surface :=
  fun x y => if inBounds x y then color else fb x y

/-- C `isspace` for the default locale, as used by `strtol`. -/
def isSpaceChar (c : Char) : Bool :=
  c = ' ' ∨ c = '\t' ∨ c = '\n' ∨ c = '\x0b' ∨ c = '\x0c' ∨ c = '\r'

/-- Is `c` a hexadecimal digit? -/
def isHexDigitChar (c : Char) : Bool :=
  ('0' ≤ c ∧ c ≤ '9') ∨ ('a' ≤ c ∧ c ≤ 'f') ∨ ('A' ≤ c ∧ c ≤ 'F')

/-- Value of a hexadecimal digit character. -/
def hexDigitValue (c : Char) : Nat :=
  if '0' ≤ c ∧ c ≤ '9' then c.toNat - '0'.toNat
  else if 'a' ≤ c ∧ c ≤ 'f' then c.toNat - 'a'.toNat + 10
  else if 'A' ≤ c ∧ c ≤ 'F' then c.toNat - 'A'.toNat + 10
  else 0

/-- Strip a leading `0x` / `0X` marker when it is followed by a hex digit
(C `strtol` consumes the marker only in that case). -/
def dropHexMark (l : List Char) : List Char :=
  match l with
  | '0' :: x :: c :: t =>
    if (x = 'x' ∨ x = 'X') ∧ isHexDigitChar c then c :: t else '0' :: x :: c :: t
  | _ => l

/-- `strtol(s, NULL, 16)` on 64-bit Linux (`long` = 64 bits): skip
whitespace, optional sign, optional `0x` marker, longest run of hex
digits (none gives 0), with clamping to `LONG_MIN` / `LONG_MAX` on
overflow. -/
def strtol16 (s : String) : Int :=
  let l := s.data.dropWhile isSpaceChar
  let sgn : Int := match l with
    | '-' :: _ => -1
    | _ => 1
  let l1 := match l with
    | '-' :: t => t
    | '+' :: t => t
    | _ => l
  let digits := (dropHexMark l1).takeWhile isHexDigitChar
  let mag : Nat := digits.foldl (fun a c => 16 * a + hexDigitValue c) 0
  let v : Int := sgn * mag
  if v > 2 ^ 63 - 1 then 2 ^ 63 - 1
  else if v < -(2 ^ 63) then -(2 ^ 63)
  else v

/-- `atoi(s)`: skip whitespace, optional sign, longest run of decimal
digits (overflow is undefined behaviour in C and is not modelled). -/
def atoi (s : String) : Int :=
  let l := s.data.dropWhile isSpaceChar
  let sgn : Int := match l with
    | '-' :: _ => -1
    | _ => 1
  let l1 := match l with
    | '-' :: t => t
    | '+' :: t => t
    | _ => l
  let digits := l1.takeWhile Char.isDigit
  let mag : Nat := digits.foldl (fun a c => 10 * a + (c.toNat - 48)) 0
  sgn * mag

/-- The cast `(uint32_t)v` of a C `long` value. -/
def toUInt32nat (v : Int) : Nat := (v % 2 ^ 32).toNat

/-- Outcome of the two fallible system steps of `main`: whether
`open("/dev/fb0")` and `mmap` succeed.  All other system calls in the
program are best-effort and do not affect control flow. -/
structure SysEnv where
  openOk : Bool
  mmapOk : Bool

/-- The requested mode: `argv[1]`, defaulting to `"logo"`. -/
def mainMode (argv : List String) : String := (argv.get? 1).getD "logo"

/-- The render dispatch and exit code of `main` in `fb_tux.c`, modelled on
the mapped surface: returns the process exit status and the final surface
contents.  `img` stands for the external `logo_linux_clut224` asset. -/
def runMain (env : SysEnv) (img : IndexedImage) (argv : List String) (fb : Surface) :
    Nat × Surface :=
  let mode := mainMode argv
  if mode = "text" then (0, fb)
  else if env.openOk = false then (1, fb)
  else if env.mmapOk = false then (1, fb)
  else if mode = "logo" then
    let count : Int := match argv.get? 2 with
      | some s => atoi s
      | none => 1
    if count = 1 then
      (0, draw_official_logo img (memset32 fb 0) (FB_WIDTH / 2 : Nat) (FB_HEIGHT / 2 : Nat))
    else (0, draw_multiple_logos img fb count)
  else if mode = "tux" then (0, draw_vector_tux (memset32 fb 0x40))
  else if mode = "color" then (0, draw_color_bars fb)
  else if mode = "gradient" then (0, draw_gradient_rgb fb)
  else if mode = "clear" then (0, memset32 fb 0)
  else if mode = "fill" then
    let color : Nat := match argv.get? 2 with
      | some s => 0xFF000000 ||| toUInt32nat (strtol16 s)
      | none => 0xFF000000
    (0, fill_loop fb color)
  else (1, fb)

/-- The modes `main` recognizes after the early `"text"` branch. -/
def known_modes : List String := ["logo", "tux", "color", "gradient", "clear", "fill"]

/-- Generic double loop writing `col px py` at `(x0 + px, y0 + py)` for
`px < w`, `py < h`; the common shape of the blitting renderers. -/
def gridFold (x0 y0 : Int) (w h : Nat) (col : Nat → Nat → Nat) (fb : Surface) : Surface :=
  (List.range h).foldl (fun a (py : Nat) =>
    (List.range w).foldl (fun b (px : Nat) =>
      put_pixel b (x0 + px) (y0 + py) (col px py)) a) fb

/-- A trivial 1x1000 all-zero indexed image used as a concrete witness
input (taller than the surface, so no tiled row fits). -/
def tallImg : IndexedImage := ⟨1, 1000, fun _ => 0, fun _ => 0⟩

/-- A 2x2 all-zero indexed image used as a concrete witness input. -/
def smallImg : IndexedImage := ⟨2, 2, fun _ => 0, fun _ => 0⟩

/-- An all-zero surface used as a concrete witness input. -/
def blankFb : Surface := fun _ _ => 0

/-! ### Helper lemmas: pixel writes and blit folds -/

theorem fbw_cast : (FB_WIDTH : Int) = 640 := rfl

theorem fbh_cast : (FB_HEIGHT : Int) = 480 := rfl

/-- Pointwise characterization of `put_pixel`. -/
theorem put_pixel_apply (fb : Surface) (x y : Int) (c : Nat) (X Y : Int) :
    put_pixel fb x y c X Y = if X = x ∧ Y = y ∧ inBounds x y then c else fb X Y := by
  by_cases hout : x < 0 ∨ (FB_WIDTH : Int) ≤ x ∨ y < 0 ∨ (FB_HEIGHT : Int) ≤ y
  · have h1 : put_pixel fb x y c = fb := by rw [put_pixel, if_pos hout]
    rw [h1, if_neg]
    rintro ⟨-, -, hin⟩
    simp only [inBounds] at hin
    omega
  · have hin : inBounds x y := by simp only [inBounds]; omega
    have h1 : put_pixel fb x y c X Y = if X = x ∧ Y = y then c else fb X Y := by
      rw [put_pixel, if_neg hout]
    rw [h1]
    by_cases hxy : X = x ∧ Y = y
    · rw [if_pos hxy, if_pos ⟨hxy.1, hxy.2, hin⟩]
    · rw [if_neg hxy, if_neg (fun h => hxy ⟨h.1, h.2.1⟩)]

/-- `put_pixel` never touches an out-of-bounds location. -/
theorem put_pixel_out (fb : Surface) (x y : Int) (c : Nat) (X Y : Int)
    (h : ¬ inBounds X Y) : put_pixel fb x y c X Y = fb X Y := by
  rw [put_pixel_apply, if_neg]
  rintro ⟨rfl, rfl, hin⟩
  exact h hin

/-- One row of a blit fold, written at vertical position `yw`. -/
theorem row_fold_apply (col : Nat → Nat) (x0 yw X Y : Int) :
    ∀ (l : List Nat) (fb : Surface),
      (l.foldl (fun b (px : Nat) => put_pixel b (x0 + px) yw (col px)) fb) X Y =
        if (∃ px ∈ l, X = x0 + (px : Int)) ∧ Y = yw ∧ inBounds X Y then
          col (X - x0).toNat
        else fb X Y := by
  intro l
  induction l with
  | nil =>
    intro fb
    simp
  | cons a t ih =>
    intro fb
    rw [List.foldl_cons, ih]
    by_cases ht : (∃ px ∈ t, X = x0 + (px : Int)) ∧ Y = yw ∧ inBounds X Y
    · rw [if_pos ht, if_pos]
      obtain ⟨⟨px, hmem, hX⟩, h2, h3⟩ := ht
      exact ⟨⟨px, List.mem_cons_of_mem a hmem, hX⟩, h2, h3⟩
    · rw [if_neg ht, put_pixel_apply]
      by_cases ha : X = x0 + (a : Int) ∧ Y = yw ∧ inBounds (x0 + (a : Int)) yw
      · obtain ⟨hX, hY, hin⟩ := ha
        have hbig : (∃ px ∈ a :: t, X = x0 + (px : Int)) ∧ Y = yw ∧ inBounds X Y :=
          ⟨⟨a, List.mem_cons_self a t, hX⟩, hY, by rw [hX, hY]; exact hin⟩
        rw [if_pos ⟨hX, hY, hin⟩, if_pos hbig]
        have hXa : (X - x0).toNat = a := by omega
        rw [hXa]
      · rw [if_neg ha, if_neg]
        rintro ⟨⟨px, hmem, hX⟩, h2, h3⟩
        rcases List.mem_cons.mp hmem with rfl | hmem2
        · exact ha ⟨hX, h2, by rw [← hX, ← h2]; exact h3⟩
        · exact ht ⟨⟨px, hmem2, hX⟩, h2, h3⟩

/-- A stack of rows of a blit fold. -/
theorem grid_rows_apply (col : Nat → Nat → Nat) (x0 y0 : Int) (w : Nat) (X Y : Int) :
    ∀ (rows : List Nat) (fb : Surface),
      (rows.foldl (fun a (py : Nat) =>
          (List.range w).foldl (fun b (px : Nat) =>
            put_pixel b (x0 + px) (y0 + py) (col px py)) a) fb) X Y =
        if (∃ px ∈ List.range w, X = x0 + (px : Int)) ∧
            (∃ py ∈ rows, Y = y0 + (py : Int)) ∧ inBounds X Y then
          col (X - x0).toNat (Y - y0).toNat
        else fb X Y := by
  intro rows
  induction rows with
  | nil =>
    intro fb
    simp
  | cons a t ih =>
    intro fb
    rw [List.foldl_cons, ih]
    by_cases ht : (∃ px ∈ List.range w, X = x0 + (px : Int)) ∧
        (∃ py ∈ t, Y = y0 + (py : Int)) ∧ inBounds X Y
    · rw [if_pos ht, if_pos]
      obtain ⟨h1, ⟨py, hmem, hY⟩, h3⟩ := ht
      exact ⟨h1, ⟨py, List.mem_cons_of_mem a hmem, hY⟩, h3⟩
    · rw [if_neg ht, row_fold_apply]
      by_cases ha : (∃ px ∈ List.range w, X = x0 + (px : Int)) ∧
          Y = y0 + (a : Int) ∧ inBounds X Y
      · obtain ⟨⟨px, hpxmem, hX⟩, hY, hin⟩ := ha
        have hbig : (∃ px ∈ List.range w, X = x0 + (px : Int)) ∧
            (∃ py ∈ a :: t, Y = y0 + (py : Int)) ∧ inBounds X Y :=
          ⟨⟨px, hpxmem, hX⟩, ⟨a, List.mem_cons_self a t, hY⟩, hin⟩
        rw [if_pos ⟨⟨px, hpxmem, hX⟩, hY, hin⟩, if_pos hbig]
        have hYa : (Y - y0).toNat = a := by omega
        rw [hYa]
      · rw [if_neg ha, if_neg]
        rintro ⟨⟨px, hpx, hX⟩, ⟨py, hpymem, hY⟩, hin⟩
        rcases List.mem_cons.mp hpymem with rfl | hmem2
        · exact ha ⟨⟨px, hpx, hX⟩, hY, hin⟩
        · exact ht ⟨⟨px, hpx, hX⟩, ⟨py, hmem2, hY⟩, hin⟩

/-- Pointwise characterization of `gridFold`. -/
theorem gridFold_apply (x0 y0 : Int) (w h : Nat) (col : Nat → Nat → Nat)
    (fb : Surface) (X Y : Int) :
    gridFold x0 y0 w h col fb X Y =
      if (∃ px < w, X = x0 + (px : Int)) ∧ (∃ py < h, Y = y0 + (py : Int)) ∧
          inBounds X Y then
        col (X - x0).toNat (Y - y0).toNat
      else fb X Y := by
  rw [gridFold, grid_rows_apply]
  simp only [List.mem_range]

/-- `gridFold` never touches an out-of-bounds location. -/
theorem gridFold_out (x0 y0 : Int) (w h : Nat) (col : Nat → Nat → Nat)
    (fb : Surface) (X Y : Int) (h1 : ¬ inBounds X Y) :
    gridFold x0 y0 w h col fb X Y = fb X Y := by
  rw [gridFold_apply, if_neg]
  rintro ⟨-, -, hin⟩
  exact h1 hin

theorem draw_rect_eq (fb : Surface) (x y : Int) (w h : Nat) (c : Nat) :
    draw_rect fb x y w h c = gridFold x y w h (fun _ _ => c) fb := rfl

theorem draw_gradient_eq (fb : Surface) :
    draw_gradient_rgb fb = gridFold 0 0 FB_WIDTH FB_HEIGHT gradient_color fb := by
  simp only [draw_gradient_rgb, gridFold, zero_add]

theorem draw_official_logo_eq (img : IndexedImage) (fb : Surface) (cx cy : Int) :
    draw_official_logo img fb cx cy =
      gridFold (cx - (img.w / 2 : Nat)) (cy - (img.h / 2 : Nat)) img.w img.h
        (logo_color img) fb := rfl

theorem exists_offset_iff (x0 X : Int) (w : Nat) :
    (∃ px, px < w ∧ X = x0 + (px : Int)) ↔ x0 ≤ X ∧ X < x0 + (w : Int) := by
  constructor
  · rintro ⟨px, hpx, rfl⟩
    omega
  · rintro ⟨h1, h2⟩
    exact ⟨(X - x0).toNat, by omega, by omega⟩

/-- Pointwise characterization of `draw_rect`. -/
theorem draw_rect_apply (fb : Surface) (x y : Int) (w h : Nat) (c : Nat) (X Y : Int) :
    draw_rect fb x y w h c X Y =
      if x ≤ X ∧ X < x + (w : Int) ∧ y ≤ Y ∧ Y < y + (h : Int) ∧ inBounds X Y then c
      else fb X Y := by
  rw [draw_rect_eq, gridFold_apply]
  refine if_congr ?_ rfl rfl
  rw [exists_offset_iff, exists_offset_iff]
  tauto

/-! ### Helper lemmas: packed 32-bit channel arithmetic -/

theorem and_255_eq_mod (x : Nat) : x &&& 255 = x % 256 := by
  have h := Nat.and_pow_two_sub_one_eq_mod x 8
  norm_num at h
  exact h

theorem lor_eq_add_of_lt (x y k : Nat) (hy : y < 2 ^ k) :
    (x * 2 ^ k) ||| y = x * 2 ^ k + y := by
  rw [Nat.mul_comm x (2 ^ k)]
  exact (Nat.mul_add_lt_is_or hy x).symm

/-- A packed ARGB word with in-range channels is the evident sum. -/
theorem pack_eq_add (a r g b : Nat) (hr : r < 256) (hg : g < 256)
    (hb : b < 256) :
    (a <<< 24) ||| (r <<< 16) ||| (g <<< 8) ||| b =
      a * 16777216 + r * 65536 + g * 256 + b := by
  simp only [Nat.shiftLeft_eq]
  rw [Nat.or_assoc, Nat.or_assoc]
  rw [lor_eq_add_of_lt g b 8 (by omega)]
  rw [lor_eq_add_of_lt r (g * 2 ^ 8 + b) 16 (by omega)]
  rw [lor_eq_add_of_lt a (r * 2 ^ 16 + (g * 2 ^ 8 + b)) 24 (by omega)]
  omega

/-- Splitting a 32-bit word into bytes and repacking is the identity. -/
theorem repack (v : Nat) (hv : v < 2 ^ 32) :
    ((((v >>> 24) &&& 255) <<< 24) ||| (((v >>> 16) &&& 255) <<< 16) |||
        (((v >>> 8) &&& 255) <<< 8) ||| ((v >>> 0) &&& 255)) = v := by
  rw [pack_eq_add _ _ _ _ (by rw [and_255_eq_mod]; omega)
    (by rw [and_255_eq_mod]; omega) (by rw [and_255_eq_mod]; omega)]
  simp only [and_255_eq_mod, Nat.shiftRight_eq_div_pow]
  omega

theorem shiftRight_lor_distrib (x y k : Nat) :
    (x ||| y) >>> k = (x >>> k) ||| (y >>> k) := by
  apply Nat.eq_of_testBit_eq
  intro j
  simp [Nat.testBit_shiftRight, Nat.testBit_or]

theorem and_lor_distrib (x y m : Nat) :
    (x ||| y) &&& m = (x &&& m) ||| (y &&& m) := by
  apply Nat.eq_of_testBit_eq
  intro j
  simp only [Nat.testBit_and, Nat.testBit_or]
  cases x.testBit j <;> cases y.testBit j <;> cases m.testBit j <;> rfl

theorem lor_small_255 (z : Nat) (hz : z < 256) : 255 ||| z = 255 := by
  apply Nat.eq_of_testBit_eq
  intro j
  simp only [Nat.testBit_or]
  by_cases hj : j < 8
  · have h255 : Nat.testBit 255 j = true := by
      have h2 : (255 : Nat) = 2 ^ 8 - 1 := by norm_num
      rw [h2, Nat.testBit_two_pow_sub_one]
      simp [hj]
    simp [h255]
  · have hpow : (2 : Nat) ^ 8 ≤ 2 ^ j := Nat.pow_le_pow_right (by norm_num) (by omega)
    have hzf : Nat.testBit z j = false := Nat.testBit_lt_two_pow (by omega)
    have h255f : Nat.testBit 255 j = false := Nat.testBit_lt_two_pow (by omega)
    simp [hzf, h255f]

/-- ORing in an opaque alpha byte always yields an opaque alpha byte. -/
theorem alpha_force (u : Nat) : ((0xFF000000 ||| u) >>> 24) &&& 255 = 255 := by
  rw [shiftRight_lor_distrib, and_lor_distrib]
  have h1 : (((0xFF000000 : Nat) >>> 24) &&& 255) = 255 := by decide
  rw [h1]
  exact lor_small_255 _ (by rw [and_255_eq_mod]; omega)

/-! ### Helper lemmas: memset, logo blits and the tiled layout -/

theorem memset32_out (fb : Surface) (c : Nat) (X Y : Int) (h : ¬ inBounds X Y) :
    memset32 fb c X Y = fb X Y := by
  simp only [memset32]
  rw [if_neg h]

theorem memset32_in (fb : Surface) (c : Nat) (X Y : Int) (h : inBounds X Y) :
    memset32 fb c X Y = c % 256 * 0x01010101 := by
  simp only [memset32]
  rw [if_pos h]

theorem draw_official_logo_out (img : IndexedImage) (fb : Surface) (cx cy : Int)
    (X Y : Int) (h : ¬ inBounds X Y) :
    draw_official_logo img fb cx cy X Y = fb X Y := by
  rw [draw_official_logo_eq]
  exact gridFold_out _ _ _ _ _ _ _ _ h

theorem draw_logos_from_out (img : IndexedImage) (sx : Int) (X Y : Int)
    (h : ¬ inBounds X Y) :
    ∀ (n i : Nat) (fb : Surface), draw_logos_from img sx i n fb X Y = fb X Y := by
  intro n
  induction n with
  | zero =>
    intro i fb
    rfl
  | succ n ih =>
    intro i fb
    rw [draw_logos_from]
    split_ifs with hbr
    · rfl
    · exact (ih (i + 1) _).trans (draw_official_logo_out img fb _ _ X Y h)

theorem logos_placed_from_le (img : IndexedImage) :
    ∀ (n i : Nat), logos_placed_from img i n ≤ n := by
  intro n
  induction n with
  | zero =>
    intro i
    simp [logos_placed_from]
  | succ n ih =>
    intro i
    rw [logos_placed_from]
    split_ifs with hbr
    · omega
    · have := ih (i + 1)
      omega

theorem logos_placed_from_full (img : IndexedImage) :
    ∀ (n i : Nat), logos_placed_from img i n = n →
      ∀ k < n, ¬ (20 + (i + k) / 4 * (img.h + 20) + img.h > FB_HEIGHT) := by
  intro n
  induction n with
  | zero =>
    intro i _ k hk
    omega
  | succ n ih =>
    intro i hplaced k hk
    rw [logos_placed_from] at hplaced
    split_ifs at hplaced with hbr
    rcases Nat.eq_zero_or_pos k with rfl | hkpos
    · simpa using hbr
    · have hrec := ih (i + 1) (by omega) (k - 1) (by omega)
      have harg : i + 1 + (k - 1) = i + k := by omega
      rw [harg] at hrec
      exact hrec

theorem draw_logos_from_eq_placed (img : IndexedImage) (sx : Int) :
    ∀ (n i : Nat) (fb : Surface),
      draw_logos_from img sx i n fb =
        draw_logos_from img sx i (logos_placed_from img i n) fb := by
  intro n
  induction n with
  | zero =>
    intro i fb
    rfl
  | succ n ih =>
    intro i fb
    by_cases hbr : 20 + i / 4 * (img.h + 20) + img.h > FB_HEIGHT
    · rw [draw_logos_from, logos_placed_from, if_pos hbr, if_pos hbr]
      rfl
    · rw [draw_logos_from, logos_placed_from, if_neg hbr, if_neg hbr,
        draw_logos_from, if_neg hbr]
      exact ih (i + 1) _

/-- Extraction of the four channel bytes from a packed, truncated word
whose channels are all at most 255. -/
theorem pack_mod_extract (A R G B : Nat) (hA : A ≤ 255) (hR : R ≤ 255)
    (hG : G ≤ 255) (hB : B ≤ 255) :
    ((((A <<< 24) ||| (R <<< 16) ||| (G <<< 8) ||| B) % 2 ^ 32) >>> 24) &&& 0xFF = A ∧
    ((((A <<< 24) ||| (R <<< 16) ||| (G <<< 8) ||| B) % 2 ^ 32) >>> 16) &&& 0xFF = R ∧
    ((((A <<< 24) ||| (R <<< 16) ||| (G <<< 8) ||| B) % 2 ^ 32) >>> 8) &&& 0xFF = G ∧
    (((A <<< 24) ||| (R <<< 16) ||| (G <<< 8) ||| B) % 2 ^ 32) &&& 0xFF = B := by
  rw [pack_eq_add A R G B (by omega) (by omega) (by omega)]
  have hlt : A * 16777216 + R * 65536 + G * 256 + B < 2 ^ 32 := by omega
  rw [Nat.mod_eq_of_lt hlt]
  simp only [Nat.shiftRight_eq_div_pow, and_255_eq_mod]
  refine ⟨by omega, by omega, by omega, by omega⟩

/-! ### Claim theorems -/

/-- C3: `put_pixel` is a no-op (the whole surface unchanged, no error) on
every out-of-range coordinate; on an in-range coordinate it writes exactly
the color there and changes no other pixel. -/
theorem put_pixel_spec (fb : Surface) (x y : Int) (c : Nat) :
    ((x < 0 ∨ (FB_WIDTH : Int) ≤ x ∨ y < 0 ∨ (FB_HEIGHT : Int) ≤ y) →
      put_pixel fb x y c = fb) ∧
    (inBounds x y →
      put_pixel fb x y c x y = c ∧
      ∀ X Y : Int, ¬(X = x ∧ Y = y) → put_pixel fb x y c X Y = fb X Y) := by
  constructor
  · intro hout
    rw [put_pixel, if_pos hout]
  · intro hin
    constructor
    · rw [put_pixel_apply, if_pos ⟨rfl, rfl, hin⟩]
    · intro X Y hne
      rw [put_pixel_apply, if_neg (fun h => hne ⟨h.1, h.2.1⟩)]

/-- Witness for C3 at the out-of-range coordinate `(-1, 5)` and the
in-range coordinate `(3, 4)`. -/
theorem put_pixel_spec_witness :
    put_pixel blankFb (-1) 5 7 = blankFb ∧
    put_pixel blankFb 3 4 9 3 4 = 9 ∧
    put_pixel blankFb 3 4 9 0 0 = blankFb 0 0 := by
  refine ⟨?_, ?_, ?_⟩
  · exact (put_pixel_spec blankFb (-1) 5 7).1 (by decide)
  · exact ((put_pixel_spec blankFb 3 4 9).2 (by decide)).1
  · exact ((put_pixel_spec blankFb 3 4 9).2 (by decide)).2 0 0 (by decide)

/-- C2 counterexample: `0x00640000` is a fully transparent color (alpha 0),
yet blending it over the destination `0x00000000` does not return the
destination unchanged. -/
theorem blend_over_transparent_cex :
    blend_over 0x00640000 0x00000000 = 0x00640000 ∧
    (0x00640000 : Nat) ≠ 0x00000000 := by
  exact ⟨by decide, by decide⟩

/-- C2 (amended): `blend_over` computes each packed channel as
`srcChannel + dstChannel * (255 - srcAlpha) / 255` with truncating integer
division; a source with alpha 255 is returned exactly over any
destination; and the all-zero fully transparent color leaves every 32-bit
destination unchanged (a source with alpha 0 but nonzero RGB instead adds
its channels to the destination, see the counterexample). -/
theorem blend_over_spec (src : Nat) (hs : src < 2 ^ 32) :
    (∀ dst : Nat,
      blend_over src dst =
        (((((src >>> 24) &&& 0xFF) +
              ((dst >>> 24) &&& 0xFF) * (255 - ((src >>> 24) &&& 0xFF)) / 255) <<< 24) |||
          ((((src >>> 16) &&& 0xFF) +
              ((dst >>> 16) &&& 0xFF) * (255 - ((src >>> 24) &&& 0xFF)) / 255) <<< 16) |||
          ((((src >>> 8) &&& 0xFF) +
              ((dst >>> 8) &&& 0xFF) * (255 - ((src >>> 24) &&& 0xFF)) / 255) <<< 8) |||
          (((src >>> 0) &&& 0xFF) +
              ((dst >>> 0) &&& 0xFF) * (255 - ((src >>> 24) &&& 0xFF)) / 255)) % 2 ^ 32) ∧
    (((src >>> 24) &&& 0xFF) = 255 → ∀ dst : Nat, blend_over src dst = src) ∧
    (∀ dst : Nat, dst < 2 ^ 32 → blend_over 0 dst = dst) := by
  refine ⟨fun dst => rfl, ?_, ?_⟩
  · intro h255 dst
    have h0 : 255 - ((src >>> 24) &&& 0xFF) = 0 := by rw [h255]
    simp only [blend_over, h0, Nat.mul_zero, Nat.zero_div, Nat.add_zero]
    rw [repack src hs]
    exact Nat.mod_eq_of_lt hs
  · intro dst hd
    have e : ∀ k : Nat, ((0 : Nat) >>> k) &&& 0xFF = 0 := by
      intro k
      simp [Nat.zero_shiftRight]
    have hc : ∀ m : Nat, m * 255 / 255 = m := fun m =>
      Nat.mul_div_cancel m (by norm_num)
    simp only [blend_over, e, Nat.sub_zero, Nat.zero_add, hc]
    rw [repack dst hd]
    exact Nat.mod_eq_of_lt hd

/-- Witness for C2 (amended) at the opaque source `0xFF102030`. -/
theorem blend_over_spec_witness :
    blend_over 0xFF102030 0x01020304 = 0xFF102030 :=
  (blend_over_spec 0xFF102030 (by norm_num)).2.1 (by decide) 0x01020304

/-- C10: whenever all four channel sums are at most 255, each byte of the
packed `blend_over` result equals the formula
`srcChannel + dstChannel * (255 - srcAlpha) / 255`; on
`blend_over 0x00C80000 0x00C80000` the red channel sum is 400, which
exceeds 255, and its excess bit carries into the alpha byte of the packed
result. -/
theorem blend_over_overflow_spec (src dst : Nat)
    (ha : ((src >>> 24) &&& 0xFF) +
        ((dst >>> 24) &&& 0xFF) * (255 - ((src >>> 24) &&& 0xFF)) / 255 ≤ 255)
    (hr : ((src >>> 16) &&& 0xFF) +
        ((dst >>> 16) &&& 0xFF) * (255 - ((src >>> 24) &&& 0xFF)) / 255 ≤ 255)
    (hg : ((src >>> 8) &&& 0xFF) +
        ((dst >>> 8) &&& 0xFF) * (255 - ((src >>> 24) &&& 0xFF)) / 255 ≤ 255)
    (hb : ((src >>> 0) &&& 0xFF) +
        ((dst >>> 0) &&& 0xFF) * (255 - ((src >>> 24) &&& 0xFF)) / 255 ≤ 255) :
    ((blend_over src dst >>> 24) &&& 0xFF =
        ((src >>> 24) &&& 0xFF) +
          ((dst >>> 24) &&& 0xFF) * (255 - ((src >>> 24) &&& 0xFF)) / 255 ∧
      (blend_over src dst >>> 16) &&& 0xFF =
        ((src >>> 16) &&& 0xFF) +
          ((dst >>> 16) &&& 0xFF) * (255 - ((src >>> 24) &&& 0xFF)) / 255 ∧
      (blend_over src dst >>> 8) &&& 0xFF =
        ((src >>> 8) &&& 0xFF) +
          ((dst >>> 8) &&& 0xFF) * (255 - ((src >>> 24) &&& 0xFF)) / 255 ∧
      blend_over src dst &&& 0xFF =
        ((src >>> 0) &&& 0xFF) +
          ((dst >>> 0) &&& 0xFF) * (255 - ((src >>> 24) &&& 0xFF)) / 255) ∧
    ((0x00C80000 >>> 16) &&& 0xFF) +
        ((0x00C80000 >>> 16) &&& 0xFF) * (255 - ((0x00C80000 >>> 24) &&& 0xFF)) / 255 = 400 ∧
    blend_over 0x00C80000 0x00C80000 = 0x01900000 ∧
    (blend_over 0x00C80000 0x00C80000 >>> 24) &&& 0xFF = 1 := by
  constructor
  · simp only [blend_over]
    exact pack_mod_extract _ _ _ _ ha hr hg hb
  · exact ⟨by decide, by decide, by decide⟩

/-- Witness for C10 at the opaque source `0xFF102030` over `0`. -/
theorem blend_over_overflow_spec_witness :
    (blend_over 0xFF102030 0 >>> 24) &&& 0xFF =
      ((0xFF102030 >>> 24) &&& 0xFF) +
        ((0 >>> 24) &&& 0xFF) * (255 - ((0xFF102030 >>> 24) &&& 0xFF)) / 255 :=
  ((blend_over_overflow_spec 0xFF102030 0 (by decide) (by decide) (by decide)
    (by decide)).1).1

/-- C5: the gradient renderer sets every pixel `(x, y)` to the opaque
packed color with red `x*255/width`, green `y*255/height` and blue
`(x+y)*127/(width+height)` (truncating division); pixel `(0,0)` is pure
opaque black and the red channel at `(width-1, 0)` is `639*255/640`,
which is less than 255. -/
theorem draw_gradient_rgb_spec (fb : Surface) (x y : Nat)
    (hx : x < FB_WIDTH) (hy : y < FB_HEIGHT) :
    draw_gradient_rgb fb x y =
      0xFF000000 ||| ((x * 255 / FB_WIDTH) <<< 16) |||
        ((y * 255 / FB_HEIGHT) <<< 8) ||| ((x + y) * 127 / (FB_WIDTH + FB_HEIGHT)) ∧
    draw_gradient_rgb fb 0 0 = 0xFF000000 ∧
    (draw_gradient_rgb fb 639 0 >>> 16) &&& 0xFF = 639 * 255 / FB_WIDTH ∧
    639 * 255 / FB_WIDTH < 255 := by
  have hmain : ∀ a b : Nat, a < FB_WIDTH → b < FB_HEIGHT →
      draw_gradient_rgb fb a b =
        0xFF000000 ||| ((a * 255 / FB_WIDTH) <<< 16) |||
          ((b * 255 / FB_HEIGHT) <<< 8) ||| ((a + b) * 127 / (FB_WIDTH + FB_HEIGHT)) := by
    intro a b ha hb
    rw [draw_gradient_eq, gridFold_apply, if_pos
      ⟨⟨a, ha, (zero_add _).symm⟩, ⟨b, hb, (zero_add _).symm⟩, by
        simp only [inBounds]
        omega⟩]
    have e1 : ((a : Int) - 0).toNat = a := by omega
    have e2 : ((b : Int) - 0).toNat = b := by omega
    rw [e1, e2]
    simp only [gradient_color]
    have m1 : a * 255 / FB_WIDTH % 256 = a * 255 / FB_WIDTH := by
      apply Nat.mod_eq_of_lt
      simp only [FB_WIDTH] at ha ⊢
      omega
    have m2 : b * 255 / FB_HEIGHT % 256 = b * 255 / FB_HEIGHT := by
      apply Nat.mod_eq_of_lt
      simp only [FB_HEIGHT] at hb ⊢
      omega
    have m3 : (a + b) * 127 / (FB_WIDTH + FB_HEIGHT) % 256 =
        (a + b) * 127 / (FB_WIDTH + FB_HEIGHT) := by
      apply Nat.mod_eq_of_lt
      simp only [FB_WIDTH] at ha
      simp only [FB_HEIGHT] at hb
      simp only [FB_WIDTH, FB_HEIGHT]
      omega
    rw [m1, m2, m3]
  refine ⟨hmain x y hx hy, ?_, ?_, by decide⟩
  · have h := hmain 0 0 (by decide) (by decide)
    simp only [Nat.cast_zero] at h
    rw [h]
    decide
  · have h := hmain 639 0 (by decide) (by decide)
    simp only [Nat.cast_ofNat, Nat.cast_zero] at h
    rw [h]
    decide

/-- Witness for C5 at pixel `(3, 5)`. -/
theorem draw_gradient_rgb_spec_witness :
    draw_gradient_rgb blankFb 3 5 =
      0xFF000000 ||| ((3 * 255 / FB_WIDTH) <<< 16) |||
        ((5 * 255 / FB_HEIGHT) <<< 8) ||| ((3 + 5) * 127 / (FB_WIDTH + FB_HEIGHT)) := by
  have h := (draw_gradient_rgb_spec blankFb 3 5 (by decide) (by decide)).1
  simpa using h

/-- C7: the single-logo blit has its top-left at exactly
`(cx - w/2, cy - h/2)` (truncating division): source pixel `(px, py)` is
written at that offset whenever the destination is in bounds, with the
palette color at alpha 255 and no blending; every destination outside the
image footprint is untouched; and every written color has alpha byte 255. -/
theorem draw_official_logo_spec (img : IndexedImage) (fb : Surface) (cx cy : Int) :
    (∀ px py : Nat, px < img.w → py < img.h →
      inBounds (cx - (img.w / 2 : Nat) + px) (cy - (img.h / 2 : Nat) + py) →
      draw_official_logo img fb cx cy (cx - (img.w / 2 : Nat) + px)
        (cy - (img.h / 2 : Nat) + py) = logo_color img px py) ∧
    (∀ X Y : Int,
      (¬ ∃ px py : Nat, px < img.w ∧ py < img.h ∧
        X = cx - (img.w / 2 : Nat) + px ∧ Y = cy - (img.h / 2 : Nat) + py) →
      draw_official_logo img fb cx cy X Y = fb X Y) ∧
    (∀ px py : Nat, (logo_color img px py >>> 24) &&& 0xFF = 255) := by
  refine ⟨?_, ?_, ?_⟩
  · intro px py hpx hpy hin
    rw [draw_official_logo_eq, gridFold_apply,
      if_pos ⟨⟨px, hpx, rfl⟩, ⟨py, hpy, rfl⟩, hin⟩]
    have e1 : (cx - (img.w / 2 : Nat) + px - (cx - (img.w / 2 : Nat))).toNat = px := by
      omega
    have e2 : (cy - (img.h / 2 : Nat) + py - (cy - (img.h / 2 : Nat))).toNat = py := by
      omega
    rw [e1, e2]
  · intro X Y hno
    rw [draw_official_logo_eq, gridFold_apply, if_neg]
    rintro ⟨⟨px, hpx, hX⟩, ⟨py, hpy, hY⟩, -⟩
    exact hno ⟨px, py, hpx, hpy, hX, hY⟩
  · intro px py
    simp only [logo_color]
    rw [Nat.or_assoc, Nat.or_assoc]
    exact alpha_force _

/-- Witness for C7: the top-left source pixel of a 2x2 image centered at
`(100, 100)` lands at `(99, 99)`. -/
theorem draw_official_logo_spec_witness :
    draw_official_logo smallImg blankFb 100 100 (100 - (smallImg.w / 2 : Nat) + (0 : Nat))
      (100 - (smallImg.h / 2 : Nat) + (0 : Nat)) = logo_color smallImg 0 0 :=
  (draw_official_logo_spec smallImg blankFb 100 100).1 0 0 (by decide) (by decide)
    (by decide)

/-- C8: on the 640-wide surface (640 divisible by 8) the color-bar
renderer paints pixel `(x, y)` with the bar color of index `x / 80`; there
are exactly 8 equal bands of width `FB_WIDTH / 8` spanning the full
height, in the fixed order, and the band widths sum to the surface
width. -/
theorem draw_color_bars_spec (fb : Surface) (x y : Int) (hin : inBounds x y) :
    draw_color_bars fb x y = bar_colors.getD (x.toNat / (FB_WIDTH / 8)) 0 ∧
    x.toNat / (FB_WIDTH / 8) < 8 ∧
    8 * (FB_WIDTH / 8) = FB_WIDTH := by
  have hinN : 0 ≤ x ∧ x < 640 ∧ 0 ≤ y ∧ y < 480 := by
    simp only [inBounds, FB_WIDTH, FB_HEIGHT] at hin
    push_cast at hin
    exact hin
  refine ⟨?_, by simp only [FB_WIDTH]; omega, by decide⟩
  simp only [draw_color_bars]
  have hr : List.range 8 = [0, 1, 2, 3, 4, 5, 6, 7] := rfl
  rw [hr]
  simp only [List.foldl_cons, List.foldl_nil, draw_rect_apply, inBounds, FB_WIDTH,
    FB_HEIGHT]
  norm_num
  split_ifs with h7 h6 h5 h4 h3 h2 h1 h0
  · have hidx : x.toNat / 80 = 7 := by omega
    rw [hidx]
  · have hidx : x.toNat / 80 = 6 := by omega
    rw [hidx]
  · have hidx : x.toNat / 80 = 5 := by omega
    rw [hidx]
  · have hidx : x.toNat / 80 = 4 := by omega
    rw [hidx]
  · have hidx : x.toNat / 80 = 3 := by omega
    rw [hidx]
  · have hidx : x.toNat / 80 = 2 := by omega
    rw [hidx]
  · have hidx : x.toNat / 80 = 1 := by omega
    rw [hidx]
  · have hidx : x.toNat / 80 = 0 := by omega
    rw [hidx]
  · omega

/-- Witness for C8 at pixel `(200, 10)` (third bar, cyan). -/
theorem draw_color_bars_spec_witness :
    draw_color_bars blankFb 200 10 = bar_colors.getD ((200 : Int).toNat / (FB_WIDTH / 8)) 0 :=
  (draw_color_bars_spec blankFb 200 10 (by decide)).1

/-- C6: the tiled-logo renderer first zeroes every in-bounds pixel, never
writes outside the surface bounds, and — whenever the row of the last
requested copy would exceed the surface height — places strictly fewer
than the requested number of copies: the final surface is the one produced
by blitting only the placed prefix. -/
theorem draw_multiple_logos_spec (img : IndexedImage) (fb : Surface) (count : Int)
    (hpos : 1 ≤ count)
    (hlast : 20 + (count.toNat - 1) / 4 * (img.h + 20) + img.h > FB_HEIGHT) :
    logos_placed img count < count.toNat ∧
    (∀ X Y : Int, ¬ inBounds X Y → draw_multiple_logos img fb count X Y = fb X Y) ∧
    (∀ X Y : Int, inBounds X Y → memset32 fb 0 X Y = 0) ∧
    draw_multiple_logos img fb count =
      draw_logos_from img (((FB_WIDTH : Int) - (img.w * 4 + 20 * 3)).tdiv 2) 0
        (logos_placed img count) (memset32 fb 0) := by
  refine ⟨?_, ?_, ?_, ?_⟩
  · simp only [logos_placed]
    have hle := logos_placed_from_le img count.toNat 0
    rcases Nat.lt_or_ge (logos_placed_from img 0 count.toNat) count.toNat with h | h
    · exact h
    · exfalso
      have heq : logos_placed_from img 0 count.toNat = count.toNat := le_antisymm hle h
      have hfit := logos_placed_from_full img count.toNat 0 heq (count.toNat - 1)
        (by omega)
      rw [Nat.zero_add] at hfit
      exact hfit hlast
  · intro X Y h
    simp only [draw_multiple_logos]
    exact (draw_logos_from_out img _ X Y h _ _ _).trans (memset32_out fb 0 X Y h)
  · intro X Y h
    rw [memset32_in fb 0 X Y h]
  · simp only [draw_multiple_logos, logos_placed]
    exact draw_logos_from_eq_placed img _ count.toNat 0 (memset32 fb 0)

/-- Witness for C6: one copy of a 1x1000 image is taller than the surface,
so zero of the one requested copies are placed. -/
theorem draw_multiple_logos_spec_witness :
    logos_placed tallImg 1 < (1 : Int).toNat :=
  (draw_multiple_logos_spec tallImg blankFb 1 (by decide) (by decide)).1

/-- C1 counterexample: after a successful `clear` request, pixel `(0,0)`
holds `0x00000000`, which is not the claimed `0xFF000000`. -/
theorem clear_cex :
    (runMain ⟨true, true⟩ tallImg ["fb_tux", "clear"] (fun _ _ => 0x12345678)).2 0 0 =
      0x00000000 ∧
    (0x00000000 : Nat) ≠ 0xFF000000 :=
  ⟨by decide, by decide⟩

/-- C1 (amended): after a successful `clear` run the exit status is 0 and
every in-bounds pixel holds `0x00000000` — all four bytes zero; on the
XRGB8888 device the unused X byte is ignored, so this displays as opaque
black, but the stored word is 0, not `0xFF000000`. -/
theorem clear_spec (env : SysEnv) (ho : env.openOk = true) (hm : env.mmapOk = true)
    (img : IndexedImage) (argv : List String) (fb : Surface)
    (hmode : argv.get? 1 = some "clear") (x y : Int) (hin : inBounds x y) :
    (runMain env img argv fb).1 = 0 ∧
    (runMain env img argv fb).2 x y = 0x00000000 := by
  have hm1 : mainMode argv = "clear" := by rw [mainMode, hmode]; rfl
  have key : runMain env img argv fb = (0, memset32 fb 0) := by
    simp only [runMain, hm1, ho, hm]
    rw [if_neg (show ¬("clear" : String) = "text" by decide)]
    rw [if_neg (show ¬(true = false) by decide)]
    rw [if_neg (show ¬(true = false) by decide)]
    rw [if_neg (show ¬("clear" : String) = "logo" by decide)]
    rw [if_neg (show ¬("clear" : String) = "tux" by decide)]
    rw [if_neg (show ¬("clear" : String) = "color" by decide)]
    rw [if_neg (show ¬("clear" : String) = "gradient" by decide)]
    rw [if_pos trivial]
  rw [key]
  refine ⟨rfl, ?_⟩
  show memset32 fb 0 x y = 0x00000000
  rw [memset32_in fb 0 x y hin]

/-- Witness for C1 (amended) at pixel `(0, 0)`. -/
theorem clear_spec_witness :
    (runMain ⟨true, true⟩ tallImg ["fb_tux", "clear"] blankFb).1 = 0 ∧
    (runMain ⟨true, true⟩ tallImg ["fb_tux", "clear"] blankFb).2 0 0 = 0x00000000 :=
  clear_spec ⟨true, true⟩ rfl rfl tallImg ["fb_tux", "clear"] blankFb rfl 0 0
    (by decide)

/-- C4 counterexample: the malformed hex argument `"12ZZ"` does not parse
to 0 — `strtol` parses its longest valid prefix `"12"` — so the surface is
filled with `0xFF000012`, not opaque black. -/
theorem fill_malformed_cex :
    (runMain ⟨true, true⟩ tallImg ["fb_tux", "fill", "12ZZ"] blankFb).2 0 0 =
      0xFF000012 ∧
    (0xFF000012 : Nat) ≠ 0xFF000000 :=
  ⟨by decide, by decide⟩

/-- C4 (amended): `fill FF0000` makes every pixel `0xFFFF0000`; an
argument that `strtol` parses to 0 (in particular one with no valid
leading hex digits), or a missing argument, fills with opaque black
`0xFF000000`; the exit status is 0 and the alpha byte of the filled color
is always 255.  (A malformed argument with a valid hex prefix fills with
that prefix value instead of black — see the counterexample.) -/
theorem fill_spec (env : SysEnv) (ho : env.openOk = true) (hm : env.mmapOk = true)
    (img : IndexedImage) (argv : List String) (fb : Surface)
    (hmode : argv.get? 1 = some "fill") (x y : Int) (hin : inBounds x y) :
    (runMain env img argv fb).1 = 0 ∧
    (argv.get? 2 = some "FF0000" → (runMain env img argv fb).2 x y = 0xFFFF0000) ∧
    (∀ s : String, argv.get? 2 = some s → strtol16 s = 0 →
      (runMain env img argv fb).2 x y = 0xFF000000) ∧
    (argv.get? 2 = none → (runMain env img argv fb).2 x y = 0xFF000000) ∧
    (∀ s : String, argv.get? 2 = some s →
      ((runMain env img argv fb).2 x y >>> 24) &&& 0xFF = 255) := by
  have hm1 : mainMode argv = "fill" := by rw [mainMode, hmode]; rfl
  have key : runMain env img argv fb =
      (0, fill_loop fb (match argv.get? 2 with
        | some s => 0xFF000000 ||| toUInt32nat (strtol16 s)
        | none => 0xFF000000)) := by
    simp only [runMain, hm1, ho, hm]
    rw [if_neg (show ¬("fill" : String) = "text" by decide)]
    rw [if_neg (show ¬(true = false) by decide)]
    rw [if_neg (show ¬(true = false) by decide)]
    rw [if_neg (show ¬("fill" : String) = "logo" by decide)]
    rw [if_neg (show ¬("fill" : String) = "tux" by decide)]
    rw [if_neg (show ¬("fill" : String) = "color" by decide)]
    rw [if_neg (show ¬("fill" : String) = "gradient" by decide)]
    rw [if_neg (show ¬("fill" : String) = "clear" by decide)]
    rw [if_pos trivial]
  rw [key]
  refine ⟨rfl, ?_, ?_, ?_, ?_⟩
  · intro h2
    rw [h2]
    show fill_loop fb (0xFF000000 ||| toUInt32nat (strtol16 "FF0000")) x y = 0xFFFF0000
    simp only [fill_loop]
    rw [if_pos hin]
    decide
  · intro s h2 hz
    rw [h2]
    show fill_loop fb (0xFF000000 ||| toUInt32nat (strtol16 s)) x y = 0xFF000000
    rw [hz]
    simp only [fill_loop]
    rw [if_pos hin]
    decide
  · intro h2
    rw [h2]
    show fill_loop fb 0xFF000000 x y = 0xFF000000
    simp only [fill_loop]
    rw [if_pos hin]
  · intro s h2
    rw [h2]
    show (fill_loop fb (0xFF000000 ||| toUInt32nat (strtol16 s)) x y >>> 24) &&& 0xFF =
      255
    simp only [fill_loop]
    rw [if_pos hin]
    exact alpha_force _

/-- Witness for C4 (amended): filling with `"FF0000"` makes pixel `(3, 4)`
opaque red. -/
theorem fill_spec_witness :
    (runMain ⟨true, true⟩ tallImg ["fb_tux", "fill", "FF0000"] blankFb).2 3 4 =
      0xFFFF0000 :=
  (fill_spec ⟨true, true⟩ rfl rfl tallImg ["fb_tux", "fill", "FF0000"] blankFb rfl 3 4
    (by decide)).2.1 rfl

/-- C9: the exit status is always 0 or 1; the text-restore path exits 0
without touching the surface; open failure, map failure, and an
unrecognized request exit 1 with the surface untouched; every recognized
render request on a healthy device exits 0. -/
theorem runMain_exit_spec (env : SysEnv) (img : IndexedImage) (argv : List String)
    (fb : Surface) :
    ((runMain env img argv fb).1 = 0 ∨ (runMain env img argv fb).1 = 1) ∧
    (mainMode argv = "text" →
      (runMain env img argv fb).1 = 0 ∧ (runMain env img argv fb).2 = fb) ∧
    (mainMode argv ≠ "text" → env.openOk = false →
      (runMain env img argv fb).1 = 1 ∧ (runMain env img argv fb).2 = fb) ∧
    (mainMode argv ≠ "text" → env.openOk = true → env.mmapOk = false →
      (runMain env img argv fb).1 = 1 ∧ (runMain env img argv fb).2 = fb) ∧
    (env.openOk = true → env.mmapOk = true → mainMode argv ∈ known_modes →
      (runMain env img argv fb).1 = 0) ∧
    (env.openOk = true → env.mmapOk = true → mainMode argv ≠ "text" →
      mainMode argv ∉ known_modes →
      (runMain env img argv fb).1 = 1 ∧ (runMain env img argv fb).2 = fb) := by
  by_cases ht : mainMode argv = "text"
  · have key : runMain env img argv fb = (0, fb) := by
      simp only [runMain, ht]
      rw [if_pos trivial]
    rw [key]
    exact ⟨Or.inl rfl, fun _ => ⟨rfl, rfl⟩, fun h => absurd ht h, fun h => absurd ht h,
      fun _ _ _ => rfl, fun _ _ h => absurd ht h⟩
  · cases hoo : env.openOk with
    | false =>
      have key : runMain env img argv fb = (1, fb) := by
        simp only [runMain, hoo]
        rw [if_neg ht, if_pos trivial]
      rw [key]
      exact ⟨Or.inr rfl, fun h => absurd h ht, fun _ _ => ⟨rfl, rfl⟩,
        fun _ h _ => absurd h (by decide), fun h _ _ => absurd h (by decide),
        fun h _ _ _ => absurd h (by decide)⟩
    | true =>
      cases hmm : env.mmapOk with
      | false =>
        have key : runMain env img argv fb = (1, fb) := by
          simp only [runMain, hoo, hmm]
          rw [if_neg ht, if_neg (show ¬(true = false) by decide), if_pos trivial]
        rw [key]
        exact ⟨Or.inr rfl, fun h => absurd h ht,
          fun _ h => absurd h (by decide), fun _ _ _ => ⟨rfl, rfl⟩,
          fun _ h _ => absurd h (by decide), fun _ h _ _ => absurd h (by decide)⟩
      | true =>
        by_cases hk : mainMode argv ∈ known_modes
        · have k0 : (runMain env img argv fb).1 = 0 := by
            simp only [known_modes, List.mem_cons, List.mem_nil_iff, or_false] at hk
            simp only [runMain, hoo, hmm]
            rw [if_neg ht, if_neg (show ¬(true = false) by decide),
              if_neg (show ¬(true = false) by decide)]
            rcases hk with h | h | h | h | h | h
            · rw [if_pos h]
              split_ifs <;> rfl
            · rw [if_neg (by rw [h]; decide), if_pos h]
            · rw [if_neg (by rw [h]; decide), if_neg (by rw [h]; decide), if_pos h]
            · rw [if_neg (by rw [h]; decide), if_neg (by rw [h]; decide),
                if_neg (by rw [h]; decide), if_pos h]
            · rw [if_neg (by rw [h]; decide), if_neg (by rw [h]; decide),
                if_neg (by rw [h]; decide), if_neg (by rw [h]; decide), if_pos h]
            · rw [if_neg (by rw [h]; decide), if_neg (by rw [h]; decide),
                if_neg (by rw [h]; decide), if_neg (by rw [h]; decide),
                if_neg (by rw [h]; decide), if_pos h]
          exact ⟨Or.inl k0, fun h => absurd h ht,
            fun _ h => absurd h (by decide), fun _ _ h => absurd h (by decide),
            fun _ _ _ => k0, fun _ _ _ hnk => absurd hk hnk⟩
        · have key : runMain env img argv fb = (1, fb) := by
            simp only [known_modes, List.mem_cons, List.mem_nil_iff, or_false,
              not_or] at hk
            obtain ⟨n1, n2, n3, n4, n5, n6⟩ := hk
            simp only [runMain, hoo, hmm]
            rw [if_neg ht, if_neg (show ¬(true = false) by decide),
              if_neg (show ¬(true = false) by decide), if_neg n1, if_neg n2, if_neg n3,
              if_neg n4, if_neg n5, if_neg n6]
          rw [key]
          exact ⟨Or.inr rfl, fun h => absurd h ht,
            fun _ h => absurd h (by decide), fun _ _ h => absurd h (by decide),
            fun _ _ hmem => absurd hmem hk, fun _ _ _ _ => ⟨rfl, rfl⟩⟩

/-- Witness for C9: the unrecognized request `"bogus"` on a healthy device
exits 1 and leaves the surface untouched. -/
theorem runMain_exit_spec_witness :
    (runMain ⟨true, true⟩ tallImg ["fb_tux", "bogus"] blankFb).1 = 1 ∧
    (runMain ⟨true, true⟩ tallImg ["fb_tux", "bogus"] blankFb).2 = blankFb :=
  (runMain_exit_spec ⟨true, true⟩ tallImg ["fb_tux", "bogus"] blankFb).2.2.2.2.2
    rfl rfl (by decide) (by decide)
